import Mathlib

/-!
Verification of the operator execution core of `arroyo-operator/src/operator.rs`:
the single-task cooperative loop that drives an `ArrowOperator`, including
checkpoint-barrier alignment, watermark merging, terminal-signal handling, the
control-plane command handler, and the lifecycle entry point `OperatorNode::start`.

The types and functions below are a shallow embedding of that file.  All side
effects (operator callbacks, control-plane sends, downstream broadcasts, state
persistence) are recorded as `Event`s in an append-only trace, so ordering
claims become statements about list positions.  `CheckpointCounter` and the
watermark holder are defined in this crate outside the file under analysis;
they are modelled from the specification (see their doc comments).
-/

namespace Arroyo

/-- Checkpoint event types sent to the control plane
(`TaskCheckpointEventType` in the source). -/
inductive TaskCheckpointEventType where
  | StartedAlignment
  | StartedCheckpointing
  | FinishedOperatorSetup
  | FinishedSync
  deriving DecidableEq, Repr

/-- `CheckpointBarrier`: a snapshot marker with a monotone epoch and a
`then_stop` flag. -/
structure CheckpointBarrier where
  epoch : Nat
  then_stop : Bool
  deriving DecidableEq, Repr

/-- `Watermark`: progress markers flowing with the data
(`EventTime(SystemTime)` is embedded with a `Nat` timestamp). -/
inductive Watermark where
  | EventTime (t : Nat)
  | Idle
  deriving DecidableEq, Repr

/-- `SignalMessage`: in-band control-flow messages interleaved with data. -/
inductive SignalMessage where
  | Barrier (b : CheckpointBarrier)
  | Watermark (w : Watermark)
  | Stop
  | EndOfData
  deriving DecidableEq, Repr

/-- `ArrowMessage`: the unit on a channel, either a data batch (the batch
payload is never inspected by the loop and embedded as a `Nat` tag) or a signal. -/
inductive ArrowMessage where
  | Data (batch : Nat)
  | Signal (s : SignalMessage)
  deriving DecidableEq, Repr

/-- `ControlMessage`: commands arriving on the dedicated control-plane channel.
Commit data is never inspected by this file and embedded as a `Nat` tag. -/
inductive ControlMessage where
  | Checkpoint (b : CheckpointBarrier)
  | Stop
  | Commit (epoch : Nat) (commitData : Nat)
  | LoadCompacted (compacted : Nat)
  | NoOp
  deriving DecidableEq, Repr

/-- `ControlOutcome` (from the crate root): what the loop does after handling
an in-band signal. -/
inductive ControlOutcome where
  | Continue
  | Stop
  | Finish
  | StopAndSendStop
  deriving DecidableEq, Repr

/-- Observable effects of the loop, recorded in program order.  Each
constructor corresponds to one side-effecting call in the source: operator
callbacks (`process_batch_index`, `handle_checkpoint`, `handle_watermark`,
`handle_commit`, `handle_tick`, `handle_future_result`, `on_start`,
`on_close`), control-plane sends (`CheckpointEvent`, `TaskFinished`),
downstream broadcasts, state-manager calls, and error logs. -/
inductive Event where
  | processBatch (idx : Nat) (batch : Nat)
  | checkpointEvent (epoch : Nat) (ty : TaskCheckpointEventType)
  | handleCheckpointCall (epoch : Nat)
  | tableCheckpoint (epoch : Nat) (wm : Option Watermark)
  | broadcastBarrier (epoch : Nat) (then_stop : Bool)
  | handleWatermarkCall (w : Watermark)
  | broadcastWatermark (w : Watermark)
  | logError (msg : String)
  | handleCommitCall (epoch : Nat) (commitData : Nat)
  | loadCompactedCall (compacted : Nat)
  | handleFutureCall
  | handleTickCall (tick : Nat)
  | onStartCall
  | onCloseCall (final : Option SignalMessage)
  | broadcastSignal (s : SignalMessage)
  | taskFinished
  deriving DecidableEq, Repr

/-- Modelled from the spec: `CheckpointCounter` (declared in the crate root,
not part of the file under analysis).  Per §4.2 it tracks the set of
partitions that have delivered the current epoch's barrier out of a fixed
partition count, and returns to "all clear" once every partition has aligned. -/
structure CheckpointCounter where
  size : Nat
  aligned : List Nat
  deriving DecidableEq, Repr

/-- Modelled from the spec: a partition is blocked (withheld from consumption)
exactly while it has delivered the current epoch's barrier and alignment has
not yet completed. -/
def CheckpointCounter.is_blocked (c : CheckpointCounter) (idx : Nat) : Bool :=
  c.aligned.contains idx

/-- Modelled from the spec: true when no partition is currently withheld. -/
def CheckpointCounter.all_clear (c : CheckpointCounter) : Bool :=
  c.aligned.isEmpty

/-- Modelled from the spec: `mark` records that `idx` delivered the barrier
(idempotently, so a duplicate barrier does not double-count), returns `true`
exactly on the transition when the last of the `size` partitions reports, and
clears the aligned set at that transition. -/
def CheckpointCounter.mark (c : CheckpointCounter) (idx : Nat) :
    Bool × CheckpointCounter :=
  let aligned' := if c.aligned.contains idx then c.aligned else idx :: c.aligned
  if aligned'.length = c.size then
    (true, { c with aligned := [] })
  else
    (false, { c with aligned := aligned' })

/-- `CheckpointCounter::new(size)`: fresh counter with nothing aligned. -/
def CheckpointCounter.new (size : Nat) : CheckpointCounter :=
  { size := size, aligned := [] }

/-- Minimum of two watermarks; an `Idle` partition does not hold the merged
watermark back. -/
def wmMin : Watermark → Watermark → Watermark
  | .Idle, w => w
  | w, .Idle => w
  | .EventTime a, .EventTime b => .EventTime (min a b)

/-- Modelled from the spec: the watermark holder (`ctx.watermarks`, defined
outside the file under analysis).  Per §4.3 it keeps one last-seen watermark
per partition (initially unknown) together with the previously returned merged
value. -/
structure WatermarkHolder where
  slots : List (Option Watermark)
  last_merged : Option Watermark
  deriving DecidableEq, Repr

/-- Fold step of the merged-watermark computation: ignore partitions that
have not reported, take the minimum over those that have. -/
def wmCombine (acc : Option Watermark) (s : Option Watermark) : Option Watermark :=
  match acc, s with
  | none, x => x
  | some a, none => some a
  | some a, some b => some (wmMin a b)

/-- Modelled from the spec: the merged watermark, the minimum across all
partitions that have reported at least once (`none` when no partition has). -/
def WatermarkHolder.merged_watermark (h : WatermarkHolder) : Option Watermark :=
  h.slots.foldl wmCombine none

/-- Modelled from the spec: `set(idx, w)` updates the slot for `idx` and
recomputes the merged watermark; the outer `Option` is `none` when `idx` is
out of range (the caller `expect`s it), and the inner `Option Watermark` is
the new merged value when it differs from the previous one, else `none`. -/
def WatermarkHolder.set (h : WatermarkHolder) (idx : Nat) (w : Watermark) :
    Option (Option Watermark × WatermarkHolder) :=
  if idx < h.slots.length then
    let slots' := h.slots.set idx (some w)
    let m := WatermarkHolder.merged_watermark { h with slots := slots' }
    let ret := if m = h.last_merged then none else m
    some (ret, { slots := slots', last_merged := m })
  else
    none

/-- Modelled from the spec: `last_present_watermark`, the merged watermark as
of the last update, captured into each checkpoint snapshot. -/
def WatermarkHolder.last_present_watermark (h : WatermarkHolder) :
    Option Watermark :=
  h.last_merged

/-- The abstract operator implementation behind the `ArrowOperator` trait.
Only `handle_watermark` returns data the loop inspects (whether to forward a
watermark downstream); every other callback is recorded as an event. -/
structure OpSpec where
  handle_watermark : Watermark → Option Watermark

/-- The mutable task state threaded through the signal handlers: the alignment
counter and closed set (locals of `operator_run_behavior`), the watermark
holder (owned by the context), and the trace of effects so far. -/
structure OpState where
  counter : CheckpointCounter
  closed : List Nat
  watermarks : WatermarkHolder
  events : List Event
  deriving DecidableEq, Repr

/-- Append one effect to the trace. -/
def OpState.emit (st : OpState) (e : Event) : OpState :=
  { st with events := st.events ++ [e] }

/-- `HashSet::insert` on the closed set, embedded as idempotent list insert. -/
def insertClosed (idx : Nat) (l : List Nat) : List Nat :=
  if l.contains idx then l else idx :: l

/-- `run_checkpoint` (operator.rs lines 109–125): persist the snapshot with
the merged watermark, send `FinishedSync`, broadcast the barrier downstream,
and report whether the barrier asks the task to stop. -/
def run_checkpoint (b : CheckpointBarrier) (st : OpState) : Bool × OpState :=
  let wm := st.watermarks.last_present_watermark
  let st := st.emit (.tableCheckpoint b.epoch wm)
  let st := st.emit (.checkpointEvent b.epoch .FinishedSync)
  let st := st.emit (.broadcastBarrier b.epoch b.then_stop)
  (b.then_stop, st)

/-- `handle_watermark_int` (operator.rs lines 265–286): invoke the operator's
watermark callback and broadcast whatever watermark it elects to forward. -/
def handle_watermark_int (op : OpSpec) (w : Watermark) (st : OpState) : OpState :=
  let st := st.emit (.handleWatermarkCall w)
  match op.handle_watermark w with
  | some w' => st.emit (.broadcastWatermark w')
  | none => st

/-- `handle_controller_message` (operator.rs lines 288–308): dispatch one
control-plane command.  `Checkpoint` and `Stop` are protocol violations here
and are only logged. -/
def handle_controller_message (msg : ControlMessage) (st : OpState) : OpState :=
  match msg with
  | .Checkpoint _ => st.emit (.logError "shouldn't receive checkpoint")
  | .Stop => st.emit (.logError "shouldn't receive stop")
  | .Commit epoch commitData => st.emit (.handleCommitCall epoch commitData)
  | .LoadCompacted compacted => st.emit (.loadCompactedCall compacted)
  | .NoOp => st

/-- `handle_control_message` (operator.rs lines 310–398): dispatch one in-band
signal from partition `idx`.  Returns `none` exactly when the source would
panic (the `expect` on the watermark holder's `set`). -/
def handle_control_message (op : OpSpec) (idx : Nat) (message : SignalMessage)
    (in_partitions : Nat) (st : OpState) : Option (ControlOutcome × OpState) :=
  match message with
  | .Barrier t =>
    let st :=
      if st.counter.all_clear then
        st.emit (.checkpointEvent t.epoch .StartedAlignment)
      else st
    let r := st.counter.mark idx
    let st := { st with counter := r.2 }
    if r.1 then
      let st := st.emit (.checkpointEvent t.epoch .StartedCheckpointing)
      let st := st.emit (.handleCheckpointCall t.epoch)
      let st := st.emit (.checkpointEvent t.epoch .FinishedOperatorSetup)
      let rc := run_checkpoint t st
      if rc.1 then some (.Stop, rc.2) else some (.Continue, rc.2)
    else
      some (.Continue, st)
  | .Watermark w =>
    match st.watermarks.set idx w with
    | none => none
    | some (ret, h') =>
      let st := { st with watermarks := h' }
      match ret with
      | some w' => some (.Continue, handle_watermark_int op w' st)
      | none => some (.Continue, st)
  | .Stop =>
    let closed' := insertClosed idx st.closed
    let st := { st with closed := closed' }
    if closed'.length = in_partitions then
      some (.StopAndSendStop, st)
    else
      some (.Continue, st)
  | .EndOfData =>
    let closed' := insertClosed idx st.closed
    let st := { st with closed := closed' }
    if closed'.length = in_partitions then
      some (.Finish, st)
    else
      some (.Continue, st)

/-- Whether the loop is still iterating, has hit a panic (`expect` failure),
or has broken out of the `loop` with the `final_message` value it will
return. -/
inductive LoopStatus where
  | running
  | panicked
  | finished (final : Option SignalMessage)
  deriving DecidableEq, Repr

/-- Full state of `operator_run_behavior`'s loop: per-partition pending input
queues (FIFO, as produced by each partition's channel), the set of sources
currently registered in the `InQReader` multiplexer (`active`), the sources
held aside for alignment (`blocked`, the `blocked` vec of the source), the
task state, the tick counter, and the loop status. -/
structure LoopState where
  in_partitions : Nat
  queues : List (List ArrowMessage)
  active : List Nat
  blocked : List Nat
  op : OpState
  ticks : Nat
  status : LoopStatus
  deriving DecidableEq, Repr

/-- One readiness branch of the `tokio::select!`: the scheduler delivers the
next message of partition `idx`, a control-plane command, the operator's
background future, or a timer tick. -/
inductive Action where
  | deliver (idx : Nat)
  | control (msg : ControlMessage)
  | future
  | tick
  deriving DecidableEq, Repr

/-- Record that the loop broke out with `final_message = fm`; `on_close` runs
with that value after the loop (operator.rs line 259). -/
def finishLoop (fm : Option SignalMessage) (st : LoopState) : LoopState :=
  { st with status := .finished fm, op := st.op.emit (.onCloseCall fm) }

/-- Lines 233–242 of operator.rs: after handling one message from `idx`
(whose source was popped from the multiplexer by `next()`), hold the source
aside if the counter reports it blocked; otherwise, first re-register every
held source when the counter reports all clear, then re-register `idx`. -/
def reRegister (idx : Nat) (st : LoopState) : LoopState :=
  if st.op.counter.is_blocked idx then
    { st with blocked := st.blocked ++ [idx] }
  else
    if st.op.counter.all_clear && !st.blocked.isEmpty then
      { st with active := st.active ++ st.blocked ++ [idx], blocked := [] }
    else
      { st with active := st.active ++ [idx] }

/-- The body of the `sel.next()` branch for one popped message
(operator.rs lines 196–243): dispatch a data batch to `process_batch_index`
or a signal to `handle_control_message`, then either break out of the loop on
a terminal outcome or run the re-registration logic.  `st1` is the state
after the multiplexer popped partition `idx`'s source and its message. -/
def deliverMessage (op : OpSpec) (idx : Nat) (message : ArrowMessage)
    (in_partitions : Nat) (st1 : LoopState) : LoopState :=
  match message with
  | .Data batch =>
    reRegister idx { st1 with op := st1.op.emit (.processBatch idx batch) }
  | .Signal sig =>
    match handle_control_message op idx sig in_partitions st1.op with
    | none => { st1 with status := .panicked }
    | some (outcome, op') =>
      let st2 : LoopState := { st1 with op := op' }
      match outcome with
      | .Continue => reRegister idx st2
      | .Stop => finishLoop none st2
      | .Finish => finishLoop (some .EndOfData) st2
      | .StopAndSendStop => finishLoop (some .Stop) st2

/-- One iteration of the `loop` in `operator_run_behavior` (operator.rs lines
188–258), given which readiness branch fires.  A `deliver idx` action is a
no-op unless `idx` is registered in the multiplexer and has a pending
message — the multiplexer only yields from registered, non-exhausted
sources. -/
def loopStep (op : OpSpec) (a : Action) (st : LoopState) : LoopState :=
  if st.status ≠ .running then st
  else
    match a with
    | .control msg => { st with op := handle_controller_message msg st.op }
    | .future => { st with op := st.op.emit .handleFutureCall }
    | .tick =>
      { st with op := st.op.emit (.handleTickCall st.ticks), ticks := st.ticks + 1 }
    | .deliver idx =>
      if st.active.contains idx then
        match (st.queues.getD idx []) with
        | [] => st
        | message :: rest =>
          deliverMessage op idx message st.in_partitions
            { st with
              active := st.active.filter (fun j => j ≠ idx),
              queues := st.queues.set idx rest }
      else st

/-- Run the loop under a scheduler choice sequence. -/
def run (op : OpSpec) (acts : List Action) (st : LoopState) : LoopState :=
  acts.foldl (fun s a => loopStep op a s) st

/-- Initial loop state of `operator_run_behavior`: `on_start` has been
invoked, the counter is sized to the partition count, the closed set is
empty, every partition's source is registered, nothing is blocked. -/
def initLoop (queues : List (List ArrowMessage)) (slots : Nat) : LoopState :=
  { in_partitions := queues.length,
    queues := queues,
    active := List.range queues.length,
    blocked := [],
    op :=
      { counter := CheckpointCounter.new queues.length,
        closed := [],
        watermarks := { slots := List.replicate slots none, last_merged := none },
        events := [.onStartCall] },
    ticks := 0,
    status := .running }

/-- Result of `OperatorNode::start`: still looping, panicked, or returned
with a complete effect trace. -/
inductive StartResult where
  | running
  | panicked
  | done (trace : List Event)
  deriving DecidableEq, Repr

/-- The terminal broadcast `start` performs when the run behavior returns a
final message (operator.rs lines 90–92). -/
def finalEvents : Option SignalMessage → List Event
  | some m => [.broadcastSignal m]
  | none => []

/-- `OperatorNode::start` (operator.rs lines 78–106): run the operator
behavior; once it returns, broadcast the final message if present, then send
`TaskFinished` to the control plane — `expect`ing success, so a failed send
(`controlOk = false`) panics the task. -/
def start (op : OpSpec) (acts : List Action) (init : LoopState)
    (controlOk : Bool) : StartResult :=
  let st := run op acts init
  match st.status with
  | .running => .running
  | .panicked => .panicked
  | .finished fm =>
    if controlOk then .done (st.op.events ++ finalEvents fm ++ [.taskFinished])
    else .panicked

/-- The `ArrowOperator` trait's default `handle_watermark`, which forwards
every watermark unchanged (operator.rs lines 437–443). -/
def opDefault : OpSpec :=
  { handle_watermark := fun w => some w }

/-- The block of effects produced on the barrier that completes alignment
(operator.rs lines 350–360 followed by `run_checkpoint`):
`StartedCheckpointing`, the operator's checkpoint callback,
`FinishedOperatorSetup`, the snapshot persist with the merged watermark,
`FinishedSync`, and finally the downstream barrier broadcast. -/
def alignBlock (b : CheckpointBarrier) (wm : Option Watermark) : List Event :=
  [.checkpointEvent b.epoch .StartedCheckpointing,
   .handleCheckpointCall b.epoch,
   .checkpointEvent b.epoch .FinishedOperatorSetup,
   .tableCheckpoint b.epoch wm,
   .checkpointEvent b.epoch .FinishedSync,
   .broadcastBarrier b.epoch b.then_stop]

/-- Deliver one barrier per listed partition index, in order, through
`handle_control_message` (the barrier branch never panics, so the fallback
arm is dead). -/
def runBarriers (op : OpSpec) (b : CheckpointBarrier) (N : Nat) :
    List Nat → OpState → OpState
  | [], st => st
  | idx :: rest, st =>
    match handle_control_message op idx (.Barrier b) N st with
    | some r => runBarriers op b N rest r.2
    | none => st

/-- Recognizer for the `StartedAlignment` control-plane event of `epoch`. -/
def isSAEvent (epoch : Nat) : Event → Bool
  | .checkpointEvent e .StartedAlignment => e = epoch
  | _ => false

/-- Number of `StartedAlignment` control-plane events for `epoch` in a
trace. -/
def countSA (epoch : Nat) (tr : List Event) : Nat :=
  (tr.filter (isSAEvent epoch)).length

/-- Recognizer for a batch-processing callback dispatch of partition `j`. -/
def isBatchEvent (j : Nat) : Event → Bool
  | .processBatch i _ => i = j
  | _ => false

/-- Number of batch-processing callback dispatches for partition `j` in a
trace. -/
def countBatches (j : Nat) (tr : List Event) : Nat :=
  (tr.filter (isBatchEvent j)).length

/-- The backpressure invariant of the loop: a partition the counter reports
blocked is not registered in the multiplexer, and neither is any source held
in the `blocked` vec. -/
def Inv (st : LoopState) : Prop :=
  (∀ j, st.op.counter.is_blocked j = true → j ∉ st.active) ∧
  (∀ j, j ∈ st.blocked → j ∉ st.active)

/-- A concrete two-partition input where both partitions deliver `Stop`. -/
def qStop : List (List ArrowMessage) :=
  [[.Signal .Stop], [.Signal .Stop]]

/-- A concrete one-partition input delivering a `then_stop` barrier. -/
def qThenStop : List (List ArrowMessage) :=
  [[.Signal (.Barrier { epoch := 4, then_stop := true })]]

theorem reRegister_op (idx : Nat) (s : LoopState) : (reRegister idx s).op = s.op := by
  unfold reRegister
  split
  · rfl
  · split <;> rfl

theorem reRegister_status (idx : Nat) (s : LoopState) :
    (reRegister idx s).status = s.status := by
  unfold reRegister
  split
  · rfl
  · split <;> rfl

theorem loopStep_deliver_cons (op : OpSpec) (idx : Nat) (st : LoopState)
    (message : ArrowMessage) (rest : List ArrowMessage)
    (hrun : st.status = .running) (hact : st.active.contains idx = true)
    (hq : st.queues.getD idx [] = message :: rest) :
    loopStep op (.deliver idx) st =
      deliverMessage op idx message st.in_partitions
        { st with
          active := st.active.filter (fun j => j ≠ idx),
          queues := st.queues.set idx rest } := by
  simp only [loopStep, hrun, hq, hact, ne_eq, not_true_eq_false, if_false,
    ite_true, if_true]

/-- C7: a `Checkpoint` or `Stop` command on the control-plane channel is only
logged as an error — no operator callback runs and no task state changes;
`Commit` and `LoadCompacted` are dispatched to their handlers, `NoOp` does
nothing, and the loop keeps running in every case. -/
theorem c7_control_plane_channel :
    (∀ b st, handle_controller_message (.Checkpoint b) st =
      { st with events := st.events ++ [.logError "shouldn't receive checkpoint"] }) ∧
    (∀ st, handle_controller_message .Stop st =
      { st with events := st.events ++ [.logError "shouldn't receive stop"] }) ∧
    (∀ e d st, handle_controller_message (.Commit e d) st =
      { st with events := st.events ++ [.handleCommitCall e d] }) ∧
    (∀ c st, handle_controller_message (.LoadCompacted c) st =
      { st with events := st.events ++ [.loadCompactedCall c] }) ∧
    (∀ st, handle_controller_message .NoOp st = st) ∧
    (∀ op msg st, (loopStep op (.control msg) st).status = st.status) := by
  refine ⟨fun b st => rfl, fun st => rfl, fun e d st => rfl, fun c st => rfl,
    fun st => rfl, ?_⟩
  intro op msg st
  by_cases h : st.status = LoopStatus.running
  · simp [loopStep, h]
  · simp [loopStep, h]

/-- C8: once the run behavior has returned, `start` broadcasts the terminal
signal (when present) strictly before sending the `TaskFinished`
acknowledgment, and a failed acknowledgment send panics the task instead of
being ignored. -/
theorem c8_start_broadcast_then_ack :
    ∀ (op : OpSpec) (acts : List Action) (init : LoopState) (controlOk : Bool)
      (fm : Option SignalMessage),
      (run op acts init).status = .finished fm →
      (controlOk = false → start op acts init controlOk = .panicked) ∧
      (controlOk = true →
        start op acts init controlOk =
          .done ((run op acts init).op.events ++ finalEvents fm ++ [.taskFinished])) ∧
      (∀ m, fm = some m → finalEvents fm = [.broadcastSignal m]) := by
  intro op acts init controlOk fm h
  refine ⟨?_, ?_, ?_⟩
  · intro hc
    simp [start, h, hc]
  · intro hc
    simp [start, h, hc]
  · intro m hm
    subst hm
    rfl

/-- Closed instance of C8 on a two-partition run where both partitions stop:
the failed acknowledgment panics, the successful one appends the `Stop`
broadcast and then `TaskFinished`. -/
theorem c8_start_broadcast_then_ack_witness :
    ((false = false →
        start opDefault [.deliver 0, .deliver 1] (initLoop qStop 2) false = .panicked) ∧
      (false = true →
        start opDefault [.deliver 0, .deliver 1] (initLoop qStop 2) false =
          .done ((run opDefault [.deliver 0, .deliver 1] (initLoop qStop 2)).op.events ++
            finalEvents (some .Stop) ++ [.taskFinished])) ∧
      (∀ m, (some SignalMessage.Stop : Option SignalMessage) = some m →
        finalEvents (some .Stop) = [.broadcastSignal m])) :=
  c8_start_broadcast_then_ack opDefault [.deliver 0, .deliver 1] (initLoop qStop 2)
    false (some .Stop) (by decide)

/-- C9: `Stop` and `EndOfData` share the one closed set, so a mix of the two
across partitions still terminates the loop once every partition has closed,
and the terminal signal is chosen solely by the signal type that closes the
last partition. -/
theorem c9_mixed_terminal_signals :
    ∀ (op : OpSpec) (st : LoopState) (idx : Nat) (rest : List ArrowMessage)
      (sig : SignalMessage),
      st.status = .running →
      st.active.contains idx = true →
      (sig = SignalMessage.Stop ∨ sig = SignalMessage.EndOfData) →
      st.queues.getD idx [] = .Signal sig :: rest →
      ((loopStep op (.deliver idx) st).op.closed = insertClosed idx st.op.closed ∧
        ((insertClosed idx st.op.closed).length ≠ st.in_partitions →
          (loopStep op (.deliver idx) st).status = .running) ∧
        ((insertClosed idx st.op.closed).length = st.in_partitions →
          (loopStep op (.deliver idx) st).status = .finished (some sig))) := by
  intro op st idx rest sig hrun hact hsig hq
  rw [loopStep_deliver_cons op idx st _ rest hrun hact hq]
  rcases hsig with h | h <;> subst h <;>
    by_cases hlen : (insertClosed idx st.op.closed).length = st.in_partitions <;>
      simp [deliverMessage, handle_control_message, hlen, finishLoop,
        reRegister_op, reRegister_status, OpState.emit, hrun]

/-- Closed instance of C9: partition 0 of two delivers `Stop` first; the loop
records it in the closed set and keeps running. -/
theorem c9_mixed_terminal_signals_witness :
    ((loopStep opDefault (.deliver 0) (initLoop qStop 2)).op.closed =
        insertClosed 0 (initLoop qStop 2).op.closed ∧
      ((insertClosed 0 (initLoop qStop 2).op.closed).length ≠
          (initLoop qStop 2).in_partitions →
        (loopStep opDefault (.deliver 0) (initLoop qStop 2)).status = .running) ∧
      ((insertClosed 0 (initLoop qStop 2).op.closed).length =
          (initLoop qStop 2).in_partitions →
        (loopStep opDefault (.deliver 0) (initLoop qStop 2)).status =
          .finished (some SignalMessage.Stop))) :=
  c9_mixed_terminal_signals opDefault (initLoop qStop 2) 0 [] SignalMessage.Stop
    (by decide) (by decide) (by decide) (by decide)

/-- C4: handling a `Stop` whose partition completes the closed set terminates
the loop with `Stop` as the broadcast terminal signal and appends only the
close callback — no checkpoint activity; a `Stop` that leaves the closed set
short keeps the loop running; and symmetrically for `EndOfData`. -/
theorem c4_all_stop_all_end_of_data :
    ∀ (op : OpSpec) (st : LoopState) (idx : Nat) (rest : List ArrowMessage),
      st.status = .running →
      st.active.contains idx = true →
      ((st.queues.getD idx [] = .Signal .Stop :: rest →
          (((insertClosed idx st.op.closed).length = st.in_partitions →
            (loopStep op (.deliver idx) st).status = .finished (some .Stop) ∧
            (loopStep op (.deliver idx) st).op.events =
              st.op.events ++ [.onCloseCall (some .Stop)]) ∧
          ((insertClosed idx st.op.closed).length ≠ st.in_partitions →
            (loopStep op (.deliver idx) st).status = .running))) ∧
        (st.queues.getD idx [] = .Signal .EndOfData :: rest →
          (((insertClosed idx st.op.closed).length = st.in_partitions →
            (loopStep op (.deliver idx) st).status = .finished (some .EndOfData) ∧
            (loopStep op (.deliver idx) st).op.events =
              st.op.events ++ [.onCloseCall (some .EndOfData)]) ∧
          ((insertClosed idx st.op.closed).length ≠ st.in_partitions →
            (loopStep op (.deliver idx) st).status = .running))) ∧
        finalEvents (some SignalMessage.Stop) = [.broadcastSignal .Stop] ∧
        finalEvents (some SignalMessage.EndOfData) = [.broadcastSignal .EndOfData]) := by
  intro op st idx rest hrun hact
  refine ⟨?_, ?_, rfl, rfl⟩ <;> intro hq <;>
    rw [loopStep_deliver_cons op idx st _ rest hrun hact hq] <;>
    by_cases hlen : (insertClosed idx st.op.closed).length = st.in_partitions <;>
      simp [deliverMessage, handle_control_message, hlen, finishLoop,
        reRegister_op, reRegister_status, OpState.emit, hrun]

/-- Closed instance of C4: the first of two partitions delivers `Stop`, which
does not yet complete the closed set. -/
theorem c4_all_stop_all_end_of_data_witness :
    ((initLoop qStop 2).queues.getD 0 [] = .Signal .Stop :: [] →
        (((insertClosed 0 (initLoop qStop 2).op.closed).length =
            (initLoop qStop 2).in_partitions →
          (loopStep opDefault (.deliver 0) (initLoop qStop 2)).status =
            .finished (some .Stop) ∧
          (loopStep opDefault (.deliver 0) (initLoop qStop 2)).op.events =
            (initLoop qStop 2).op.events ++ [.onCloseCall (some .Stop)]) ∧
        ((insertClosed 0 (initLoop qStop 2).op.closed).length ≠
            (initLoop qStop 2).in_partitions →
          (loopStep opDefault (.deliver 0) (initLoop qStop 2)).status = .running))) ∧
      ((initLoop qStop 2).queues.getD 0 [] = .Signal .EndOfData :: [] →
        (((insertClosed 0 (initLoop qStop 2).op.closed).length =
            (initLoop qStop 2).in_partitions →
          (loopStep opDefault (.deliver 0) (initLoop qStop 2)).status =
            .finished (some .EndOfData) ∧
          (loopStep opDefault (.deliver 0) (initLoop qStop 2)).op.events =
            (initLoop qStop 2).op.events ++ [.onCloseCall (some .EndOfData)]) ∧
        ((insertClosed 0 (initLoop qStop 2).op.closed).length ≠
            (initLoop qStop 2).in_partitions →
          (loopStep opDefault (.deliver 0) (initLoop qStop 2)).status = .running))) ∧
      finalEvents (some SignalMessage.Stop) = [.broadcastSignal .Stop] ∧
      finalEvents (some SignalMessage.EndOfData) = [.broadcastSignal .EndOfData] :=
  c4_all_stop_all_end_of_data opDefault (initLoop qStop 2) 0 [] (by decide) (by decide)

/-- C3: a barrier with `then_stop` set whose arrival completes alignment ends
the loop immediately after the snapshot commit and barrier broadcast: the
status becomes `finished` with no terminal signal, the trace ends with the
broadcast followed only by the close callback, every later action is a no-op,
and `start` broadcasts nothing for the absent final message. -/
theorem c3_then_stop_terminates :
    ∀ (op : OpSpec) (st : LoopState) (idx : Nat) (rest : List ArrowMessage)
      (b : CheckpointBarrier),
      st.status = .running →
      st.active.contains idx = true →
      st.queues.getD idx [] = .Signal (.Barrier b) :: rest →
      b.then_stop = true →
      (st.op.counter.mark idx).1 = true →
      ((loopStep op (.deliver idx) st).status = .finished none ∧
        (loopStep op (.deliver idx) st).op.events =
          st.op.events ++
            (if st.op.counter.all_clear then
              [Event.checkpointEvent b.epoch .StartedAlignment]
            else []) ++
            [Event.checkpointEvent b.epoch .StartedCheckpointing,
             Event.handleCheckpointCall b.epoch,
             Event.checkpointEvent b.epoch .FinishedOperatorSetup,
             Event.tableCheckpoint b.epoch st.op.watermarks.last_merged,
             Event.checkpointEvent b.epoch .FinishedSync,
             Event.broadcastBarrier b.epoch true,
             Event.onCloseCall none] ∧
        (∀ a, loopStep op a (loopStep op (.deliver idx) st) =
          loopStep op (.deliver idx) st) ∧
        finalEvents none = []) := by
  intro op st idx rest b hrun hact hq hstop hmark
  rw [loopStep_deliver_cons op idx st _ rest hrun hact hq]
  by_cases hclear : st.op.counter.all_clear = true
  · simp [deliverMessage, handle_control_message, hclear, OpState.emit, hmark,
      run_checkpoint, hstop, finishLoop, WatermarkHolder.last_present_watermark,
      loopStep, finalEvents]
  · simp [deliverMessage, handle_control_message, hclear, OpState.emit, hmark,
      run_checkpoint, hstop, finishLoop, WatermarkHolder.last_present_watermark,
      loopStep, finalEvents]

/-- Closed instance of C3: a single-partition task receives a `then_stop`
barrier that aligns immediately. -/
theorem c3_then_stop_terminates_witness :
    ((loopStep opDefault (.deliver 0) (initLoop qThenStop 1)).status =
        .finished none ∧
      (loopStep opDefault (.deliver 0) (initLoop qThenStop 1)).op.events =
        (initLoop qThenStop 1).op.events ++
          (if (initLoop qThenStop 1).op.counter.all_clear then
            [Event.checkpointEvent 4 .StartedAlignment]
          else []) ++
          [Event.checkpointEvent 4 .StartedCheckpointing,
           Event.handleCheckpointCall 4,
           Event.checkpointEvent 4 .FinishedOperatorSetup,
           Event.tableCheckpoint 4 (initLoop qThenStop 1).op.watermarks.last_merged,
           Event.checkpointEvent 4 .FinishedSync,
           Event.broadcastBarrier 4 true,
           Event.onCloseCall none] ∧
      (∀ a, loopStep opDefault a (loopStep opDefault (.deliver 0) (initLoop qThenStop 1)) =
        loopStep opDefault (.deliver 0) (initLoop qThenStop 1)) ∧
      finalEvents none = []) :=
  c3_then_stop_terminates opDefault (initLoop qThenStop 1) 0 []
    { epoch := 4, then_stop := true } (by decide) (by decide) (by decide) (by decide)
    (by decide)

theorem foldl_wmCombine_some (l : List (Option Watermark)) :
    ∀ (a : Watermark), (l.foldl wmCombine (some a)).isSome := by
  induction l with
  | nil => intro a; rfl
  | cons hd tl ih =>
    intro a
    cases hd with
    | none => exact ih a
    | some b => exact ih (wmMin a b)

theorem merged_set_isSome (l : List (Option Watermark)) :
    ∀ (idx : Nat) (w : Watermark), idx < l.length →
      ((l.set idx (some w)).foldl wmCombine none).isSome := by
  induction l with
  | nil => intro idx w h; simp at h
  | cons hd tl ih =>
    intro idx w h
    cases idx with
    | zero =>
      simpa [wmCombine] using foldl_wmCombine_some tl w
    | succ i =>
      have hi : i < tl.length := by simpa using h
      cases hd with
      | none => simpa [wmCombine] using ih i w hi
      | some a => simpa [wmCombine] using foldl_wmCombine_some (tl.set i (some w)) a

theorem handle_watermark_int_spec (op : OpSpec) (w : Watermark) (st : OpState) :
    (handle_watermark_int op w st).counter = st.counter ∧
    (handle_watermark_int op w st).closed = st.closed ∧
    (handle_watermark_int op w st).watermarks = st.watermarks ∧
    (handle_watermark_int op w st).events =
      st.events ++ Event.handleWatermarkCall w ::
        (match op.handle_watermark w with
         | some w' => [Event.broadcastWatermark w']
         | none => []) := by
  cases hcb : op.handle_watermark w <;>
    simp [handle_watermark_int, OpState.emit, hcb]

/-- C10: a `Watermark` signal whose partition index is outside the watermark
holder's capacity makes `handle_control_message` panic (the `expect` on
`set`), and the loop aborts with a panicked status; with the index in range
the panic branch is unreachable. -/
theorem c10_watermark_expect_panic :
    ∀ (op : OpSpec) (st : OpState) (idx : Nat) (w : Watermark) (N : Nat)
      (ls : LoopState) (rest : List ArrowMessage),
      (st.watermarks.slots.length ≤ idx →
        handle_control_message op idx (.Watermark w) N st = none) ∧
      (idx < st.watermarks.slots.length →
        (handle_control_message op idx (.Watermark w) N st).isSome) ∧
      (ls.status = .running → ls.active.contains idx = true →
        ls.queues.getD idx [] = .Signal (.Watermark w) :: rest →
        ls.op.watermarks.slots.length ≤ idx →
        (loopStep op (.deliver idx) ls).status = .panicked) := by
  intro op st idx w N ls rest
  refine ⟨?_, ?_, ?_⟩
  · intro h
    simp [handle_control_message, WatermarkHolder.set, Nat.not_lt.mpr h]
  · intro h
    obtain ⟨mw, hmw⟩ := Option.isSome_iff_exists.mp
      (merged_set_isSome st.watermarks.slots idx w h)
    by_cases hadv :
        ((st.watermarks.slots.set idx (some w)).foldl wmCombine none) =
          st.watermarks.last_merged
    · simp [handle_control_message, WatermarkHolder.set, h,
        WatermarkHolder.merged_watermark, hadv]
    · rw [hmw] at hadv
      simp [handle_control_message, WatermarkHolder.set, h,
        WatermarkHolder.merged_watermark, hadv, hmw]
  · intro hrun hact hq hcap
    rw [loopStep_deliver_cons op idx ls _ rest hrun hact hq]
    simp [deliverMessage, handle_control_message, WatermarkHolder.set,
      Nat.not_lt.mpr hcap]

/-- Closed instance of C10: a one-slot holder panics on partition 5 and
succeeds on partition 0; a zero-slot task panics on its only partition. -/
theorem c10_watermark_expect_panic_witness :
    (handle_control_message opDefault 5 (.Watermark (.EventTime 3)) 1
        (initLoop [[]] 1).op = none) ∧
    (handle_control_message opDefault 0 (.Watermark (.EventTime 3)) 1
        (initLoop [[]] 1).op).isSome ∧
    (loopStep opDefault (.deliver 0)
        (initLoop [[.Signal (.Watermark (.EventTime 3))]] 0)).status = .panicked :=
  ⟨(c10_watermark_expect_panic opDefault (initLoop [[]] 1).op 5 (.EventTime 3) 1
      (initLoop [[]] 1) []).1 (by decide),
    (c10_watermark_expect_panic opDefault (initLoop [[]] 1).op 0 (.EventTime 3) 1
      (initLoop [[]] 1) []).2.1 (by decide),
    (c10_watermark_expect_panic opDefault
      (initLoop [[.Signal (.Watermark (.EventTime 3))]] 0).op 0 (.EventTime 3) 1
      (initLoop [[.Signal (.Watermark (.EventTime 3))]] 0) []).2.2 (by decide)
      (by decide) (by decide) (by decide)⟩

/-- C6: handling an in-range `Watermark` signal updates exactly the
partition's slot; the operator's watermark callback is invoked if and only if
the merged watermark changed, and when invoked, a watermark is broadcast
downstream if and only if the callback returns one to forward. -/
theorem c6_watermark_dispatch :
    ∀ (op : OpSpec) (st : OpState) (idx : Nat) (w : Watermark) (N : Nat),
      idx < st.watermarks.slots.length →
      ∃ (st' : OpState) (mw : Watermark),
        handle_control_message op idx (.Watermark w) N st =
          some (.Continue, st') ∧
        st'.watermarks.slots = st.watermarks.slots.set idx (some w) ∧
        st'.watermarks.last_merged = some mw ∧
        st'.counter = st.counter ∧
        st'.closed = st.closed ∧
        (some mw = st.watermarks.last_merged → st'.events = st.events) ∧
        (some mw ≠ st.watermarks.last_merged →
          st'.events = st.events ++
            Event.handleWatermarkCall mw ::
              (match op.handle_watermark mw with
               | some w' => [Event.broadcastWatermark w']
               | none => [])) := by
  intro op st idx w N h
  obtain ⟨mw, hmw⟩ := Option.isSome_iff_exists.mp
    (merged_set_isSome st.watermarks.slots idx w h)
  by_cases hadv :
      (some mw : Option Watermark) = st.watermarks.last_merged
  · refine ⟨{ st with watermarks :=
        { slots := st.watermarks.slots.set idx (some w), last_merged := some mw } },
      mw, ?_, rfl, rfl, rfl, rfl, fun _ => rfl, fun hne => absurd hadv hne⟩
    simp [handle_control_message, WatermarkHolder.set, h,
      WatermarkHolder.merged_watermark, hmw, hadv]
  · obtain ⟨hc, hcl, hwm, hev⟩ := handle_watermark_int_spec op mw
      { st with watermarks :=
        { slots := st.watermarks.slots.set idx (some w), last_merged := some mw } }
    refine ⟨handle_watermark_int op mw
      { st with watermarks :=
        { slots := st.watermarks.slots.set idx (some w), last_merged := some mw } },
      mw, ?_, by rw [hwm], by rw [hwm], by rw [hc], by rw [hcl],
      fun heq => absurd heq hadv, fun _ => by simpa using hev⟩
    simp [handle_control_message, WatermarkHolder.set, h,
      WatermarkHolder.merged_watermark, hmw, hadv]

/-- Closed instance of C6: partition 0 of a fresh two-slot holder reports
event time 7. -/
theorem c6_watermark_dispatch_witness :
    ∃ (st' : OpState) (mw : Watermark),
      handle_control_message opDefault 0 (.Watermark (.EventTime 7)) 2
          (initLoop [[], []] 2).op =
        some (.Continue, st') ∧
      st'.watermarks.slots =
        (initLoop [[], []] 2).op.watermarks.slots.set 0 (some (.EventTime 7)) ∧
      st'.watermarks.last_merged = some mw ∧
      st'.counter = (initLoop [[], []] 2).op.counter ∧
      st'.closed = (initLoop [[], []] 2).op.closed ∧
      (some mw = (initLoop [[], []] 2).op.watermarks.last_merged →
        st'.events = (initLoop [[], []] 2).op.events) ∧
      (some mw ≠ (initLoop [[], []] 2).op.watermarks.last_merged →
        st'.events = (initLoop [[], []] 2).op.events ++
          Event.handleWatermarkCall mw ::
            (match opDefault.handle_watermark mw with
             | some w' => [Event.broadcastWatermark w']
             | none => [])) :=
  c6_watermark_dispatch opDefault (initLoop [[], []] 2).op 0 (.EventTime 7) 2
    (by decide)

theorem handle_barrier_first_mid (op : OpSpec) (N idx : Nat) (st : OpState)
    (b : CheckpointBarrier)
    (hclear : st.counter.aligned = [])
    (hsz : 1 ≠ st.counter.size) :
    handle_control_message op idx (.Barrier b) N st =
      some (.Continue,
        { st with
          counter := { st.counter with aligned := [idx] },
          events := st.events ++
            [Event.checkpointEvent b.epoch .StartedAlignment] }) := by
  simp [handle_control_message, CheckpointCounter.all_clear, hclear,
    CheckpointCounter.mark, OpState.emit, hsz]

theorem handle_barrier_first_complete (op : OpSpec) (N idx : Nat) (st : OpState)
    (b : CheckpointBarrier)
    (hclear : st.counter.aligned = [])
    (hsz : 1 = st.counter.size) :
    handle_control_message op idx (.Barrier b) N st =
      some (if b.then_stop then ControlOutcome.Stop else ControlOutcome.Continue,
        { st with
          counter := { st.counter with aligned := [] },
          events := st.events ++
            Event.checkpointEvent b.epoch .StartedAlignment ::
              alignBlock b st.watermarks.last_merged }) := by
  have hallclear : st.counter.all_clear = true := by
    simp [CheckpointCounter.all_clear, hclear]
  have hmark : st.counter.mark idx = (true, { st.counter with aligned := [] }) := by
    simp [CheckpointCounter.mark, hclear, ← hsz]
  cases hts : b.then_stop <;>
    simp [handle_control_message, hallclear, hmark, OpState.emit, run_checkpoint,
      hts, WatermarkHolder.last_present_watermark, alignBlock]

theorem handle_barrier_mid (op : OpSpec) (N idx : Nat) (st : OpState)
    (b : CheckpointBarrier)
    (hne : st.counter.aligned ≠ [])
    (hnm : idx ∉ st.counter.aligned)
    (hlen : st.counter.aligned.length + 1 ≠ st.counter.size) :
    handle_control_message op idx (.Barrier b) N st =
      some (.Continue,
        { st with
          counter := { st.counter with aligned := idx :: st.counter.aligned } }) := by
  have hclear : st.counter.aligned.isEmpty = false := by
    simpa [List.isEmpty_iff] using hne
  simp [handle_control_message, CheckpointCounter.all_clear, hclear,
    CheckpointCounter.mark, hnm, hlen]

theorem handle_barrier_complete (op : OpSpec) (N idx : Nat) (st : OpState)
    (b : CheckpointBarrier)
    (hne : st.counter.aligned ≠ [])
    (hnm : idx ∉ st.counter.aligned)
    (hlen : st.counter.aligned.length + 1 = st.counter.size) :
    handle_control_message op idx (.Barrier b) N st =
      some (if b.then_stop then ControlOutcome.Stop else ControlOutcome.Continue,
        { st with
          counter := { st.counter with aligned := [] },
          events := st.events ++ alignBlock b st.watermarks.last_merged }) := by
  have hallclear : st.counter.all_clear = false := by
    simpa [CheckpointCounter.all_clear, List.isEmpty_iff] using hne
  have hcont : st.counter.aligned.contains idx = false := by simpa using hnm
  have hmark : st.counter.mark idx = (true, { st.counter with aligned := [] }) := by
    simp [CheckpointCounter.mark, hcont, hnm, ← hlen]
  cases hts : b.then_stop <;>
    simp [handle_control_message, hallclear, hmark, OpState.emit, run_checkpoint,
      hts, WatermarkHolder.last_present_watermark, alignBlock]

theorem runBarriers_complete (op : OpSpec) (b : CheckpointBarrier) (N : Nat) :
    ∀ (idxs : List Nat) (st : OpState),
      st.counter.aligned ≠ [] →
      (st.counter.aligned ++ idxs).Nodup →
      (st.counter.aligned ++ idxs).length = st.counter.size →
      idxs ≠ [] →
      runBarriers op b N idxs st =
        { st with
          counter := { st.counter with aligned := [] },
          events := st.events ++ alignBlock b st.watermarks.last_merged } := by
  intro idxs
  induction idxs with
  | nil => intro st _ _ _ hcon; exact absurd rfl hcon
  | cons idx rest ih =>
    intro st hne hnd hlen _
    have hnm : idx ∉ st.counter.aligned := by
      have hd := (List.nodup_append.mp hnd).2.2
      intro hmem
      exact hd hmem (List.mem_cons_self idx rest)
    cases rest with
    | nil =>
      have hlen1 : st.counter.aligned.length + 1 = st.counter.size := by
        simpa using hlen
      simp [runBarriers, handle_barrier_complete op N idx st b hne hnm hlen1]
    | cons y ys =>
      have hlen0 := hlen
      simp only [List.length_append, List.length_cons] at hlen0
      have hlt : st.counter.aligned.length + 1 ≠ st.counter.size := by omega
      rw [runBarriers, handle_barrier_mid op N idx st b hne hnm hlt]
      have hperm :
          (st.counter.aligned ++ idx :: (y :: ys)).Perm
            ((idx :: st.counter.aligned) ++ y :: ys) :=
        List.perm_middle
      have := ih { st with counter := { st.counter with aligned := idx :: st.counter.aligned } }
        (by simp) (by simpa using hperm.nodup hnd)
        (by simpa [hperm.length_eq.symm] using hlen) (by simp)
      simpa using this

theorem countSA_alignBlock (epoch : Nat) (b : CheckpointBarrier)
    (wm : Option Watermark) : countSA epoch (alignBlock b wm) = 0 := by
  simp [countSA, alignBlock, isSAEvent, List.filter]

theorem runBarriers_no_new_alignment_event (op : OpSpec) (b : CheckpointBarrier)
    (N : Nat) :
    ∀ (idxs : List Nat) (st : OpState),
      st.counter.aligned ≠ [] →
      (st.counter.aligned ++ idxs).Nodup →
      (st.counter.aligned ++ idxs).length ≤ st.counter.size →
      ∃ tail, (runBarriers op b N idxs st).events = st.events ++ tail ∧
        countSA b.epoch tail = 0 := by
  intro idxs
  induction idxs with
  | nil => intro st _ _ _; exact ⟨[], by simp [runBarriers], rfl⟩
  | cons idx rest ih =>
    intro st hne hnd hlen
    have hnm : idx ∉ st.counter.aligned := by
      have hd := (List.nodup_append.mp hnd).2.2
      intro hmem
      exact hd hmem (List.mem_cons_self idx rest)
    by_cases hcomp : st.counter.aligned.length + 1 = st.counter.size
    · have hlen0 := hlen
      simp only [List.length_append, List.length_cons] at hlen0
      have hrest : rest = [] := List.length_eq_zero.mp (by omega)
      subst hrest
      refine ⟨alignBlock b st.watermarks.last_merged, ?_,
        countSA_alignBlock b.epoch b st.watermarks.last_merged⟩
      simp [runBarriers, handle_barrier_complete op N idx st b hne hnm hcomp]
    · rw [runBarriers, handle_barrier_mid op N idx st b hne hnm hcomp]
      have hperm :
          (st.counter.aligned ++ idx :: rest).Perm
            ((idx :: st.counter.aligned) ++ rest) :=
        List.perm_middle
      obtain ⟨tail, hev, hcount⟩ := ih
        { st with counter := { st.counter with aligned := idx :: st.counter.aligned } }
        (by simp) (by simpa using hperm.nodup hnd)
        (by simpa [hperm.length_eq.symm] using hlen)
      exact ⟨tail, by simpa using hev, hcount⟩

/-- C2: starting from an all-clear counter, delivering one barrier of the
epoch from each of the partitions (in any order) appends to the trace exactly
`StartedAlignment` (on the first barrier) and then, on the aligning barrier,
`StartedCheckpointing`, the checkpoint callback, `FinishedOperatorSetup`, the
snapshot persist with the merged watermark, `FinishedSync`, and only then the
downstream barrier broadcast. -/
theorem c2_checkpoint_event_order :
    ∀ (op : OpSpec) (b : CheckpointBarrier) (N : Nat) (st : OpState)
      (idxs : List Nat),
      st.counter.aligned = [] →
      idxs.Nodup →
      idxs.length = st.counter.size →
      idxs ≠ [] →
      runBarriers op b N idxs st =
        { st with
          counter := { st.counter with aligned := [] },
          events := st.events ++
            Event.checkpointEvent b.epoch .StartedAlignment ::
              alignBlock b st.watermarks.last_present_watermark } := by
  intro op b N st idxs hclear hnd hlen hni
  cases idxs with
  | nil => exact absurd rfl hni
  | cons idx rest =>
    cases rest with
    | nil =>
      have hsz : 1 = st.counter.size := by simpa using hlen
      simp [runBarriers, handle_barrier_first_complete op N idx st b hclear hsz,
        WatermarkHolder.last_present_watermark]
    | cons y ys =>
      have hsz : 1 ≠ st.counter.size := by
        rw [← hlen]; simp
      rw [runBarriers, handle_barrier_first_mid op N idx st b hclear hsz]
      have hres := runBarriers_complete op b N (y :: ys)
        { st with
          counter := { st.counter with aligned := [idx] },
          events := st.events ++
            [Event.checkpointEvent b.epoch .StartedAlignment] }
        (by simp) (by simpa [hclear] using hnd) (by simpa [hclear] using hlen)
        (by simp)
      simpa [WatermarkHolder.last_present_watermark] using hres

/-- Closed instance of C2: two partitions align epoch 9 in order 0 then 1. -/
theorem c2_checkpoint_event_order_witness :
    runBarriers opDefault { epoch := 9, then_stop := false } 2
        [0, 1] (initLoop [[], []] 2).op =
      { (initLoop [[], []] 2).op with
        counter := { (initLoop [[], []] 2).op.counter with aligned := [] },
        events := (initLoop [[], []] 2).op.events ++
          Event.checkpointEvent 9 .StartedAlignment ::
            alignBlock { epoch := 9, then_stop := false }
              (initLoop [[], []] 2).op.watermarks.last_present_watermark } :=
  c2_checkpoint_event_order opDefault { epoch := 9, then_stop := false } 2
    (initLoop [[], []] 2).op [0, 1] (by decide) (by decide) (by decide) (by decide)

/-- C5: starting from an all-clear counter, a sequence of distinct-partition
barriers of one epoch (no more than the partition count) makes the loop send
`StartedAlignment` exactly once, on the first barrier handled, and on no
later barrier of the epoch. -/
theorem c5_started_alignment_once :
    ∀ (op : OpSpec) (b : CheckpointBarrier) (N : Nat) (st : OpState)
      (idx : Nat) (rest : List Nat),
      st.counter.aligned = [] →
      (idx :: rest).Nodup →
      (idx :: rest).length ≤ st.counter.size →
      ∃ tail,
        (runBarriers op b N (idx :: rest) st).events =
          st.events ++ Event.checkpointEvent b.epoch .StartedAlignment :: tail ∧
        countSA b.epoch tail = 0 := by
  intro op b N st idx rest hclear hnd hlen
  by_cases hsz : 1 = st.counter.size
  · have hrest : rest = [] := by
      rw [← hsz] at hlen
      simpa using List.length_eq_zero.mp (by simpa using hlen)
    subst hrest
    refine ⟨alignBlock b st.watermarks.last_merged, ?_,
      countSA_alignBlock b.epoch b st.watermarks.last_merged⟩
    simp [runBarriers, handle_barrier_first_complete op N idx st b hclear hsz]
  · rw [runBarriers, handle_barrier_first_mid op N idx st b hclear hsz]
    obtain ⟨tail, hev, hcount⟩ := runBarriers_no_new_alignment_event op b N rest
      { st with
        counter := { st.counter with aligned := [idx] },
        events := st.events ++
          [Event.checkpointEvent b.epoch .StartedAlignment] }
      (by simp) (by simpa [hclear] using hnd) (by simpa [hclear] using hlen)
    exact ⟨tail, by simpa using hev, hcount⟩

/-- Closed instance of C5: two partitions of three deliver epoch-9 barriers;
only the first emits `StartedAlignment`. -/
theorem c5_started_alignment_once_witness :
    ∃ tail,
      (runBarriers opDefault { epoch := 9, then_stop := false } 3 [0, 1]
          (initLoop [[], [], []] 3).op).events =
        (initLoop [[], [], []] 3).op.events ++
          Event.checkpointEvent 9 .StartedAlignment :: tail ∧
      countSA 9 tail = 0 :=
  c5_started_alignment_once opDefault { epoch := 9, then_stop := false } 3
    (initLoop [[], [], []] 3).op 0 [1] (by decide) (by decide) (by decide)

theorem all_clear_is_blocked (c : CheckpointCounter) (h : c.all_clear = true)
    (j : Nat) : c.is_blocked j = false := by
  simp [CheckpointCounter.all_clear, List.isEmpty_iff] at h
  simp [CheckpointCounter.is_blocked, h]

theorem mark_is_blocked_mono (c : CheckpointCounter) (idx j : Nat) (hne : j ≠ idx)
    (h : (c.mark idx).2.is_blocked j = true) : c.is_blocked j = true := by
  simp only [CheckpointCounter.mark] at h
  by_cases hc : c.aligned.contains idx = true
  · rw [if_pos hc] at h
    split at h
    · simp [CheckpointCounter.is_blocked] at h
    · simpa [CheckpointCounter.is_blocked] using h
  · rw [if_neg hc] at h
    split at h
    · simp [CheckpointCounter.is_blocked] at h
    · simp only [CheckpointCounter.is_blocked] at h ⊢
      simp at h ⊢
      rcases h with h | h
      · exact absurd h hne
      · exact h

theorem handle_controller_message_fields (msg : ControlMessage) (st : OpState) :
    (handle_controller_message msg st).counter = st.counter ∧
    (handle_controller_message msg st).closed = st.closed ∧
    (handle_controller_message msg st).watermarks = st.watermarks := by
  cases msg <;> exact ⟨rfl, rfl, rfl⟩

theorem countBatches_append (j : Nat) (a b : List Event) :
    countBatches j (a ++ b) = countBatches j a + countBatches j b := by
  simp [countBatches, List.filter_append]

theorem handle_control_message_counter (op : OpSpec) (idx : Nat)
    (sig : SignalMessage) (N : Nat) (st : OpState) (out : ControlOutcome)
    (st' : OpState)
    (h : handle_control_message op idx sig N st = some (out, st')) :
    st'.counter = st.counter ∨ st'.counter = (st.counter.mark idx).2 := by
  cases sig with
  | Barrier b =>
    right
    by_cases hclear : st.counter.all_clear = true <;>
      by_cases hmk : (st.counter.mark idx).1 = true <;>
      cases hts : b.then_stop <;>
      simp [handle_control_message, hclear, hmk, OpState.emit, run_checkpoint,
        hts] at h <;>
      rw [← h.2]
  | Watermark w =>
    left
    simp only [handle_control_message] at h
    cases hset : st.watermarks.set idx w with
    | none => rw [hset] at h; exact absurd h (by simp)
    | some p =>
      rw [hset] at h
      obtain ⟨ret, h'⟩ := p
      cases hret : ret with
      | none =>
        rw [hret] at h
        simp at h
        rw [← h.2]
      | some w' =>
        rw [hret] at h
        simp at h
        rw [← h.2]
        exact (handle_watermark_int_spec op w'
          { st with watermarks := h' }).1
  | Stop =>
    left
    by_cases hlen : (insertClosed idx st.closed).length = N <;>
      simp [handle_control_message, hlen] at h <;> rw [← h.2]
  | EndOfData =>
    left
    by_cases hlen : (insertClosed idx st.closed).length = N <;>
      simp [handle_control_message, hlen] at h <;> rw [← h.2]

theorem handle_controller_message_no_batch (msg : ControlMessage) (st : OpState)
    (j : Nat) :
    countBatches j (handle_controller_message msg st).events =
      countBatches j st.events := by
  cases msg <;>
    simp [handle_controller_message, OpState.emit, countBatches,
      List.filter_append, isBatchEvent]

theorem handle_control_message_no_batch (op : OpSpec) (idx : Nat)
    (sig : SignalMessage) (N : Nat) (st : OpState) (out : ControlOutcome)
    (st' : OpState)
    (h : handle_control_message op idx sig N st = some (out, st')) (j : Nat) :
    countBatches j st'.events = countBatches j st.events := by
  cases sig with
  | Barrier b =>
    by_cases hclear : st.counter.all_clear = true <;>
      by_cases hmk : (st.counter.mark idx).1 = true <;>
      cases hts : b.then_stop <;>
      simp [handle_control_message, hclear, hmk, OpState.emit, run_checkpoint,
        hts] at h <;>
      rw [← h.2] <;>
      simp [countBatches, List.filter_append, isBatchEvent]
  | Watermark w =>
    simp only [handle_control_message] at h
    cases hset : st.watermarks.set idx w with
    | none => rw [hset] at h; exact absurd h (by simp)
    | some p =>
      rw [hset] at h
      obtain ⟨ret, h'⟩ := p
      cases hret : ret with
      | none =>
        rw [hret] at h
        simp at h
        rw [← h.2]
      | some w' =>
        rw [hret] at h
        simp at h
        rw [← h.2]
        have hev := (handle_watermark_int_spec op w' { st with watermarks := h' }).2.2.2
        rw [hev]
        cases hcb : op.handle_watermark w' <;>
          simp [hcb, countBatches, List.filter_append, isBatchEvent]
  | Stop =>
    by_cases hlen : (insertClosed idx st.closed).length = N <;>
      simp [handle_control_message, hlen] at h <;> rw [← h.2]
  | EndOfData =>
    by_cases hlen : (insertClosed idx st.closed).length = N <;>
      simp [handle_control_message, hlen] at h <;> rw [← h.2]

theorem inv_filtered (stOrig : LoopState) (idx : Nat) (s : LoopState)
    (hInv : Inv stOrig)
    (hactive : s.active = stOrig.active.filter (fun j => j ≠ idx))
    (hblocked : s.blocked = stOrig.blocked)
    (hmono : ∀ j, j ≠ idx → s.op.counter.is_blocked j = true →
      stOrig.op.counter.is_blocked j = true) :
    Inv s := by
  constructor
  · intro j hb
    rw [hactive]
    intro hmem
    have hj := List.mem_filter.mp hmem
    have hne : j ≠ idx := by simpa using hj.2
    exact hInv.1 j (hmono j hne hb) hj.1
  · intro j hjb
    rw [hblocked] at hjb
    rw [hactive]
    intro hmem
    exact hInv.2 j hjb (List.mem_filter.mp hmem).1

theorem inv_reRegister (stOrig : LoopState) (idx : Nat) (s : LoopState)
    (hInv : Inv stOrig)
    (hact : idx ∈ stOrig.active)
    (hactive : s.active = stOrig.active.filter (fun j => j ≠ idx))
    (hblocked : s.blocked = stOrig.blocked)
    (hmono : ∀ j, j ≠ idx → s.op.counter.is_blocked j = true →
      stOrig.op.counter.is_blocked j = true) :
    Inv (reRegister idx s) := by
  unfold reRegister
  by_cases hbl : s.op.counter.is_blocked idx = true
  · rw [if_pos hbl]
    constructor
    · intro j hb
      rw [hactive]
      intro hmem
      have hj := List.mem_filter.mp hmem
      have hne : j ≠ idx := by simpa using hj.2
      exact hInv.1 j (hmono j hne hb) hj.1
    · intro j hjb
      rcases List.mem_append.mp hjb with hj | hj
      · rw [hblocked] at hj
        rw [hactive]
        intro hmem
        exact hInv.2 j hj (List.mem_filter.mp hmem).1
      · have hji : j = idx := by simpa using hj
        subst hji
        rw [hactive]
        intro hmem
        have := (List.mem_filter.mp hmem).2
        simp at this
  · rw [if_neg hbl]
    by_cases hdr : (s.op.counter.all_clear && !s.blocked.isEmpty) = true
    · rw [if_pos hdr]
      have hclear : s.op.counter.all_clear = true := by
        have := hdr
        simp [Bool.and_eq_true] at this
        exact this.1
      constructor
      · intro j hb
        rw [all_clear_is_blocked s.op.counter hclear j] at hb
        exact absurd hb (by simp)
      · intro j hjb
        simp at hjb
    · rw [if_neg hdr]
      constructor
      · intro j hb
        intro hmem
        rcases List.mem_append.mp hmem with hj | hj
        · rw [hactive] at hj
          have hjf := List.mem_filter.mp hj
          have hne : j ≠ idx := by simpa using hjf.2
          exact hInv.1 j (hmono j hne hb) hjf.1
        · have hji : j = idx := by simpa using hj
          subst hji
          exact hbl hb
      · intro j hjb
        rw [hblocked] at hjb
        have hnact := hInv.2 j hjb
        intro hmem
        rcases List.mem_append.mp hmem with hj | hj
        · rw [hactive] at hj
          exact hnact (List.mem_filter.mp hj).1
        · have hji : j = idx := by simpa using hj
          subst hji
          exact hnact hact

theorem inv_loopStep (op : OpSpec) (a : Action) (st : LoopState) (h : Inv st) :
    Inv (loopStep op a st) := by
  by_cases hrun : st.status = .running
  · cases a with
    | control msg =>
      have heq : loopStep op (.control msg) st =
          { st with op := handle_controller_message msg st.op } := by
        simp [loopStep, hrun]
      rw [heq]
      constructor
      · intro j hb
        rw [show ({ st with op := handle_controller_message msg st.op } :
              LoopState).op.counter = st.op.counter from
            (handle_controller_message_fields msg st.op).1] at hb
        exact h.1 j hb
      · exact h.2
    | future =>
      have heq : loopStep op .future st =
          { st with op := st.op.emit .handleFutureCall } := by
        simp [loopStep, hrun]
      rw [heq]
      exact ⟨h.1, h.2⟩
    | tick =>
      have heq : loopStep op .tick st =
          { st with op := st.op.emit (.handleTickCall st.ticks),
                    ticks := st.ticks + 1 } := by
        simp [loopStep, hrun]
      rw [heq]
      exact ⟨h.1, h.2⟩
    | deliver idx =>
      by_cases hact : st.active.contains idx = true
      · cases hq : st.queues.getD idx [] with
        | nil =>
          have hq' : st.queues[idx]?.getD [] = ([] : List ArrowMessage) := by
            simpa [← List.getD_eq_getElem?_getD] using hq
          have heq : loopStep op (.deliver idx) st = st := by
            simp [loopStep, hrun]
            intro _
            rw [hq']
          rw [heq]; exact h
        | cons message rest =>
          rw [loopStep_deliver_cons op idx st message rest hrun hact hq]
          have hmem : idx ∈ st.active := by simpa using hact
          cases message with
          | Data batch =>
            exact inv_reRegister st idx _ h hmem rfl rfl (fun j hne hb => hb)
          | Signal sig =>
            cases hh : handle_control_message op idx sig st.in_partitions
                { st with
                  active := st.active.filter (fun j => j ≠ idx),
                  queues := st.queues.set idx rest }.op with
            | none =>
              have heq : deliverMessage op idx (.Signal sig) st.in_partitions
                  { st with
                    active := st.active.filter (fun j => j ≠ idx),
                    queues := st.queues.set idx rest } =
                  { st with
                    active := st.active.filter (fun j => j ≠ idx),
                    queues := st.queues.set idx rest,
                    status := .panicked } := by
                simp [deliverMessage, hh]
              rw [heq]
              exact inv_filtered st idx _ h rfl rfl (fun j hne hb => hb)
            | some p =>
              obtain ⟨outcome, op'⟩ := p
              have hmono : ∀ j, j ≠ idx → op'.counter.is_blocked j = true →
                  st.op.counter.is_blocked j = true := by
                intro j hne hb
                rcases handle_control_message_counter op idx sig
                    st.in_partitions _ outcome op' hh with hc | hc
                · rw [hc] at hb; exact hb
                · rw [hc] at hb; exact mark_is_blocked_mono _ idx j hne hb
              cases outcome with
              | Continue =>
                have heq : deliverMessage op idx (.Signal sig) st.in_partitions
                    { st with
                      active := st.active.filter (fun j => j ≠ idx),
                      queues := st.queues.set idx rest } =
                    reRegister idx
                      { st with
                        active := st.active.filter (fun j => j ≠ idx),
                        queues := st.queues.set idx rest,
                        op := op' } := by
                  simp [deliverMessage, hh]
                rw [heq]
                exact inv_reRegister st idx _ h hmem rfl rfl hmono
              | Stop =>
                have heq : deliverMessage op idx (.Signal sig) st.in_partitions
                    { st with
                      active := st.active.filter (fun j => j ≠ idx),
                      queues := st.queues.set idx rest } =
                    finishLoop none
                      { st with
                        active := st.active.filter (fun j => j ≠ idx),
                        queues := st.queues.set idx rest,
                        op := op' } := by
                  simp [deliverMessage, hh]
                rw [heq]
                exact inv_filtered st idx _ h rfl rfl hmono
              | Finish =>
                have heq : deliverMessage op idx (.Signal sig) st.in_partitions
                    { st with
                      active := st.active.filter (fun j => j ≠ idx),
                      queues := st.queues.set idx rest } =
                    finishLoop (some .EndOfData)
                      { st with
                        active := st.active.filter (fun j => j ≠ idx),
                        queues := st.queues.set idx rest,
                        op := op' } := by
                  simp [deliverMessage, hh]
                rw [heq]
                exact inv_filtered st idx _ h rfl rfl hmono
              | StopAndSendStop =>
                have heq : deliverMessage op idx (.Signal sig) st.in_partitions
                    { st with
                      active := st.active.filter (fun j => j ≠ idx),
                      queues := st.queues.set idx rest } =
                    finishLoop (some .Stop)
                      { st with
                        active := st.active.filter (fun j => j ≠ idx),
                        queues := st.queues.set idx rest,
                        op := op' } := by
                  simp [deliverMessage, hh]
                rw [heq]
                exact inv_filtered st idx _ h rfl rfl hmono
      · have hact' : idx ∉ st.active := by simpa using hact
        have heq : loopStep op (.deliver idx) st = st := by
          simp [loopStep, hrun, hact']
        rw [heq]; exact h
  · have heq : loopStep op a st = st := by simp [loopStep, hrun]
    rw [heq]; exact h

theorem inv_run (op : OpSpec) :
    ∀ (acts : List Action) (st : LoopState), Inv st → Inv (run op acts st) := by
  intro acts
  induction acts with
  | nil => intro st h; exact h
  | cons a rest ih =>
    intro st h
    exact ih (loopStep op a st) (inv_loopStep op a st h)

theorem reRegister_reactivation (idx : Nat) (s : LoopState) (j : Nat)
    (hjnf : j ∉ s.active)
    (hjne : j ≠ idx)
    (hjact : j ∈ (reRegister idx s).active) :
    (reRegister idx s).op.counter.all_clear = true := by
  unfold reRegister at hjact ⊢
  by_cases hbl : s.op.counter.is_blocked idx = true
  · rw [if_pos hbl] at hjact ⊢
    exact absurd hjact hjnf
  · rw [if_neg hbl] at hjact ⊢
    by_cases hdr : (s.op.counter.all_clear && !s.blocked.isEmpty) = true
    · rw [if_pos hdr]
      have hdr' := hdr
      simp [Bool.and_eq_true] at hdr'
      exact hdr'.1
    · rw [if_neg hdr] at hjact ⊢
      rcases List.mem_append.mp hjact with hj | hj
      · exact absurd hj hjnf
      · exact absurd (by simpa using hj) hjne

theorem loopStep_reactivation (op : OpSpec) (a : Action) (st : LoopState)
    (hInv : Inv st) :
    ∀ j, j ∈ st.blocked → j ∈ (loopStep op a st).active →
      (loopStep op a st).op.counter.all_clear = true := by
  intro j hjb hjact
  have hnact : j ∉ st.active := hInv.2 j hjb
  by_cases hrun : st.status = .running
  · cases a with
    | control msg =>
      have heq : loopStep op (.control msg) st =
          { st with op := handle_controller_message msg st.op } := by
        simp [loopStep, hrun]
      rw [heq] at hjact
      exact absurd hjact hnact
    | future =>
      have heq : loopStep op .future st =
          { st with op := st.op.emit .handleFutureCall } := by
        simp [loopStep, hrun]
      rw [heq] at hjact
      exact absurd hjact hnact
    | tick =>
      have heq : loopStep op .tick st =
          { st with op := st.op.emit (.handleTickCall st.ticks),
                    ticks := st.ticks + 1 } := by
        simp [loopStep, hrun]
      rw [heq] at hjact
      exact absurd hjact hnact
    | deliver idx =>
      by_cases hact : st.active.contains idx = true
      · have hmem : idx ∈ st.active := by simpa using hact
        have hjne : j ≠ idx := by
          intro hji
          subst hji
          exact hnact hmem
        cases hq : st.queues.getD idx [] with
        | nil =>
          have hq' : st.queues[idx]?.getD [] = ([] : List ArrowMessage) := by
            simpa [← List.getD_eq_getElem?_getD] using hq
          have heq : loopStep op (.deliver idx) st = st := by
            simp [loopStep, hrun]
            intro _
            rw [hq']
          rw [heq] at hjact
          exact absurd hjact hnact
        | cons message rest =>
          rw [loopStep_deliver_cons op idx st message rest hrun hact hq] at hjact ⊢
          have hnf : j ∉ ({ st with
              active := st.active.filter (fun k => k ≠ idx),
              queues := st.queues.set idx rest } : LoopState).active := by
            intro hmemf
            exact hnact (List.mem_filter.mp hmemf).1
          cases message with
          | Data batch =>
            exact reRegister_reactivation idx _ j (fun hm => hnf hm) hjne hjact
          | Signal sig =>
            cases hh : handle_control_message op idx sig st.in_partitions
                { st with
                  active := st.active.filter (fun k => k ≠ idx),
                  queues := st.queues.set idx rest }.op with
            | none =>
              rw [show deliverMessage op idx (.Signal sig) st.in_partitions
                  { st with
                    active := st.active.filter (fun k => k ≠ idx),
                    queues := st.queues.set idx rest } =
                  { st with
                    active := st.active.filter (fun k => k ≠ idx),
                    queues := st.queues.set idx rest,
                    status := .panicked } from by simp [deliverMessage, hh]]
                  at hjact
              exact absurd hjact (fun hm => hnf hm)
            | some p =>
              obtain ⟨outcome, op'⟩ := p
              cases outcome with
              | Continue =>
                rw [show deliverMessage op idx (.Signal sig) st.in_partitions
                    { st with
                      active := st.active.filter (fun k => k ≠ idx),
                      queues := st.queues.set idx rest } =
                    reRegister idx
                      { st with
                        active := st.active.filter (fun k => k ≠ idx),
                        queues := st.queues.set idx rest,
                        op := op' } from by simp [deliverMessage, hh]] at hjact ⊢
                exact reRegister_reactivation idx _ j (fun hm => hnf hm) hjne hjact
              | Stop =>
                rw [show deliverMessage op idx (.Signal sig) st.in_partitions
                    { st with
                      active := st.active.filter (fun k => k ≠ idx),
                      queues := st.queues.set idx rest } =
                    finishLoop none
                      { st with
                        active := st.active.filter (fun k => k ≠ idx),
                        queues := st.queues.set idx rest,
                        op := op' } from by simp [deliverMessage, hh]] at hjact
                exact absurd hjact (fun hm => hnf hm)
              | Finish =>
                rw [show deliverMessage op idx (.Signal sig) st.in_partitions
                    { st with
                      active := st.active.filter (fun k => k ≠ idx),
                      queues := st.queues.set idx rest } =
                    finishLoop (some .EndOfData)
                      { st with
                        active := st.active.filter (fun k => k ≠ idx),
                        queues := st.queues.set idx rest,
                        op := op' } from by simp [deliverMessage, hh]] at hjact
                exact absurd hjact (fun hm => hnf hm)
              | StopAndSendStop =>
                rw [show deliverMessage op idx (.Signal sig) st.in_partitions
                    { st with
                      active := st.active.filter (fun k => k ≠ idx),
                      queues := st.queues.set idx rest } =
                    finishLoop (some .Stop)
                      { st with
                        active := st.active.filter (fun k => k ≠ idx),
                        queues := st.queues.set idx rest,
                        op := op' } from by simp [deliverMessage, hh]] at hjact
                exact absurd hjact (fun hm => hnf hm)
      · have hact' : idx ∉ st.active := by simpa using hact
        have heq : loopStep op (.deliver idx) st = st := by
          simp [loopStep, hrun, hact']
        rw [heq] at hjact
        exact absurd hjact hnact
  · have heq : loopStep op a st = st := by simp [loopStep, hrun]
    rw [heq] at hjact
    exact absurd hjact hnact

theorem loopStep_batch_unblocked (op : OpSpec) (a : Action) (st : LoopState)
    (hInv : Inv st) :
    ∀ j, countBatches j (loopStep op a st).op.events >
        countBatches j st.op.events →
      st.op.counter.is_blocked j = false := by
  intro j hc
  by_cases hrun : st.status = .running
  · cases a with
    | control msg =>
      have heq : loopStep op (.control msg) st =
          { st with op := handle_controller_message msg st.op } := by
        simp [loopStep, hrun]
      rw [heq, handle_controller_message_no_batch msg st.op j] at hc
      exact absurd hc (by simp)
    | future =>
      have heq : loopStep op .future st =
          { st with op := st.op.emit .handleFutureCall } := by
        simp [loopStep, hrun]
      rw [heq] at hc
      simp [OpState.emit, countBatches_append, countBatches, isBatchEvent] at hc
    | tick =>
      have heq : loopStep op .tick st =
          { st with op := st.op.emit (.handleTickCall st.ticks),
                    ticks := st.ticks + 1 } := by
        simp [loopStep, hrun]
      rw [heq] at hc
      simp [OpState.emit, countBatches_append, countBatches, isBatchEvent] at hc
    | deliver idx =>
      by_cases hact : st.active.contains idx = true
      · have hmem : idx ∈ st.active := by simpa using hact
        cases hq : st.queues.getD idx [] with
        | nil =>
          have hq' : st.queues[idx]?.getD [] = ([] : List ArrowMessage) := by
            simpa [← List.getD_eq_getElem?_getD] using hq
          have heq : loopStep op (.deliver idx) st = st := by
            simp [loopStep, hrun]
            intro _
            rw [hq']
          rw [heq] at hc
          exact absurd hc (by simp)
        | cons message rest =>
          rw [loopStep_deliver_cons op idx st message rest hrun hact hq] at hc
          cases message with
          | Data batch =>
            rw [show deliverMessage op idx (.Data batch) st.in_partitions
                { st with
                  active := st.active.filter (fun k => k ≠ idx),
                  queues := st.queues.set idx rest } =
                reRegister idx
                  { st with
                    active := st.active.filter (fun k => k ≠ idx),
                    queues := st.queues.set idx rest,
                    op := ({ st with
                      active := st.active.filter (fun k => k ≠ idx),
                      queues := st.queues.set idx rest } : LoopState).op.emit
                        (.processBatch idx batch) } from rfl] at hc
            rw [reRegister_op] at hc
            by_cases hij : idx = j
            · subst hij
              cases hbl : st.op.counter.is_blocked idx with
              | false => rfl
              | true => exact absurd hmem (hInv.1 idx hbl)
            · simp [OpState.emit, countBatches, List.filter_append, isBatchEvent,
                hij] at hc
          | Signal sig =>
            cases hh : handle_control_message op idx sig st.in_partitions
                { st with
                  active := st.active.filter (fun k => k ≠ idx),
                  queues := st.queues.set idx rest }.op with
            | none =>
              rw [show deliverMessage op idx (.Signal sig) st.in_partitions
                  { st with
                    active := st.active.filter (fun k => k ≠ idx),
                    queues := st.queues.set idx rest } =
                  { st with
                    active := st.active.filter (fun k => k ≠ idx),
                    queues := st.queues.set idx rest,
                    status := .panicked } from by simp [deliverMessage, hh]] at hc
              exact absurd hc (by simp)
            | some p =>
              obtain ⟨outcome, op'⟩ := p
              have hnb := handle_control_message_no_batch op idx sig
                st.in_partitions _ outcome op' hh j
              cases outcome with
              | Continue =>
                rw [show deliverMessage op idx (.Signal sig) st.in_partitions
                    { st with
                      active := st.active.filter (fun k => k ≠ idx),
                      queues := st.queues.set idx rest } =
                    reRegister idx
                      { st with
                        active := st.active.filter (fun k => k ≠ idx),
                        queues := st.queues.set idx rest,
                        op := op' } from by simp [deliverMessage, hh]] at hc
                rw [reRegister_op] at hc
                rw [show ({ st with
                    active := st.active.filter (fun k => k ≠ idx),
                    queues := st.queues.set idx rest,
                    op := op' } : LoopState).op = op' from rfl] at hc
                rw [hnb] at hc
                exact absurd hc (by simp)
              | Stop =>
                rw [show deliverMessage op idx (.Signal sig) st.in_partitions
                    { st with
                      active := st.active.filter (fun k => k ≠ idx),
                      queues := st.queues.set idx rest } =
                    finishLoop none
                      { st with
                        active := st.active.filter (fun k => k ≠ idx),
                        queues := st.queues.set idx rest,
                        op := op' } from by simp [deliverMessage, hh]] at hc
                rw [show (finishLoop none
                    { st with
                      active := st.active.filter (fun k => k ≠ idx),
                      queues := st.queues.set idx rest,
                      op := op' } : LoopState).op.events =
                    op'.events ++ [Event.onCloseCall none] from rfl] at hc
                rw [countBatches_append, hnb] at hc
                simp [countBatches, isBatchEvent] at hc
              | Finish =>
                rw [show deliverMessage op idx (.Signal sig) st.in_partitions
                    { st with
                      active := st.active.filter (fun k => k ≠ idx),
                      queues := st.queues.set idx rest } =
                    finishLoop (some .EndOfData)
                      { st with
                        active := st.active.filter (fun k => k ≠ idx),
                        queues := st.queues.set idx rest,
                        op := op' } from by simp [deliverMessage, hh]] at hc
                rw [show (finishLoop (some .EndOfData)
                    { st with
                      active := st.active.filter (fun k => k ≠ idx),
                      queues := st.queues.set idx rest,
                      op := op' } : LoopState).op.events =
                    op'.events ++ [Event.onCloseCall (some .EndOfData)] from rfl] at hc
                rw [countBatches_append, hnb] at hc
                simp [countBatches, isBatchEvent] at hc
              | StopAndSendStop =>
                rw [show deliverMessage op idx (.Signal sig) st.in_partitions
                    { st with
                      active := st.active.filter (fun k => k ≠ idx),
                      queues := st.queues.set idx rest } =
                    finishLoop (some .Stop)
                      { st with
                        active := st.active.filter (fun k => k ≠ idx),
                        queues := st.queues.set idx rest,
                        op := op' } from by simp [deliverMessage, hh]] at hc
                rw [show (finishLoop (some .Stop)
                    { st with
                      active := st.active.filter (fun k => k ≠ idx),
                      queues := st.queues.set idx rest,
                      op := op' } : LoopState).op.events =
                    op'.events ++ [Event.onCloseCall (some .Stop)] from rfl] at hc
                rw [countBatches_append, hnb] at hc
                simp [countBatches, isBatchEvent] at hc
      · have hact' : idx ∉ st.active := by simpa using hact
        have heq : loopStep op (.deliver idx) st = st := by
          simp [loopStep, hrun, hact']
        rw [heq] at hc
        exact absurd hc (by simp)
  · have heq : loopStep op a st = st := by simp [loopStep, hrun]
    rw [heq] at hc
    exact absurd hc (by simp)

/-- C1: in every reachable state of the operator loop, a partition the
alignment counter reports blocked is withheld from the multiplexer (so none
of its post-barrier messages can be consumed before alignment completes), a
withheld source re-enters the multiplexer only into a state whose counter
reports all clear, and a batch is dispatched to the processing callback only
from a partition the counter does not report blocked. -/
theorem c1_alignment_backpressure :
    ∀ (op : OpSpec) (acts : List Action) (init : LoopState),
      Inv init →
      ((∀ j, (run op acts init).op.counter.is_blocked j = true →
          j ∉ (run op acts init).active) ∧
        (∀ a j, j ∈ (run op acts init).blocked →
          j ∈ (loopStep op a (run op acts init)).active →
          (loopStep op a (run op acts init)).op.counter.all_clear = true) ∧
        (∀ a j, countBatches j (loopStep op a (run op acts init)).op.events >
            countBatches j (run op acts init).op.events →
          (run op acts init).op.counter.is_blocked j = false)) := by
  intro op acts init hInv
  have hR := inv_run op acts init hInv
  exact ⟨hR.1, fun a j => loopStep_reactivation op a _ hR j,
    fun a j => loopStep_batch_unblocked op a _ hR j⟩

/-- Closed instance of C1 on a two-partition run that consumed partition 0's
`Stop` message. -/
theorem c1_alignment_backpressure_witness :
    ((∀ j, (run opDefault [Action.deliver 0]
          (initLoop qStop 2)).op.counter.is_blocked j = true →
        j ∉ (run opDefault [Action.deliver 0] (initLoop qStop 2)).active) ∧
      (∀ a j, j ∈ (run opDefault [Action.deliver 0] (initLoop qStop 2)).blocked →
        j ∈ (loopStep opDefault a
          (run opDefault [Action.deliver 0] (initLoop qStop 2))).active →
        (loopStep opDefault a
          (run opDefault [Action.deliver 0]
            (initLoop qStop 2))).op.counter.all_clear = true) ∧
      (∀ a j, countBatches j (loopStep opDefault a
            (run opDefault [Action.deliver 0] (initLoop qStop 2))).op.events >
          countBatches j
            (run opDefault [Action.deliver 0] (initLoop qStop 2)).op.events →
        (run opDefault [Action.deliver 0]
          (initLoop qStop 2)).op.counter.is_blocked j = false)) :=
  c1_alignment_backpressure opDefault [Action.deliver 0] (initLoop qStop 2)
    (by
      constructor
      · intro j hb
        simp [initLoop, CheckpointCounter.new, CheckpointCounter.is_blocked] at hb
      · intro j hjb
        simp [initLoop] at hjb)

end Arroyo
